import Mathlib

/-!
Verification of the consensus merge engine
(`cvat/apps/consensus/intersect_merge.py`).

Annotations are identified by stable natural-number handles standing for
the Python `id()` values; every map or cache keyed by `id(...)` in the
source is keyed by these handles here.  Python floats are modelled as
rationals.  `set.pop()` iteration order is unspecified in Python; wherever
the source iterates over a `set`, this development fixes ascending handle
order (the deterministic order the spec itself suggests in its design
notes).
-/

/-! ### Similarity cache - `CachedSimilarityFunction` -/

/-- `CachedSimilarityFunction._sort_key`: a key `(a, b)` is sorted so that
`(a, b)` and `(b, a)` address the same cache entry. -/
def sortKey (k : Nat × Nat) : Nat × Nat :=
  if k.1 ≤ k.2 then k else (k.2, k.1)

/-- `CachedSimilarityFunction.__call__`: returns 1 when both arguments are
the same object, otherwise looks the sorted key up in the cache, computing
and storing `sim_fn a b` on a miss.  The (value, updated cache) pair models
the mutation of `self.cache`. -/
def cachedSimCall (simFn : Nat → Nat → ℚ) (a b : Nat)
    (cache : List ((Nat × Nat) × ℚ)) : ℚ × List ((Nat × Nat) × ℚ) :=
  if a = b then (1, cache)
  else
    match cache.lookup (sortKey (a, b)) with
    | some v => (v, cache)
    | none => (simFn a b, (sortKey (a, b), simFn a b) :: cache)

/-! ### Cluster builder - `_ShapeMatcher.match_annotations` -/

/-- One entry of `id_segm`: an annotation handle together with the handle of
its owning source (`id(s)` in the source code, here the source's index). -/
structure Seg where
  aid : Nat
  src : Nat
deriving DecidableEq, Repr

/-- The pairwise-matching loop: for every ordered pair of sources
`(sources[i], sources[j])` with `i < j`, collect the pairs returned by
`match_annotations_two_sources` (passed in as `mf`, since each shape type
overrides it). -/
def allPairMatches (mf : List Seg → List Seg → List (Seg × Seg)) :
    List (List Seg) → List (Seg × Seg)
  | [] => []
  | s :: rest => (rest.flatMap fun t => mf s t) ++ allPairMatches mf rest

/-- The adjacency map `adjacent`: for `(a, b)` in the matches, `id(b)` is
appended to `adjacent[id(a)]` (edges are directed from the earlier source
to the later one, exactly as in the source). -/
def adjacentOf (ms : List (Nat × Nat)) (i : Nat) : List Nat :=
  (ms.filter fun p => p.1 == i).map Prod.snd

/-- Lookup of the owning source recorded in `id_segm`. -/
def srcOfSegs (segs : List Seg) (i : Nat) : Nat :=
  match segs.find? (fun s => s.aid == i) with
  | some s => s.src
  | none => 0

/-- `_is_close_enough cluster extra_id`: true when no current member `a` of
the cluster has `distance(a, b) < cluster_dist` for the candidate `b`. -/
def isCloseEnough (dfn : Nat → Nat → ℚ) (cdist : ℚ)
    (cluster : List Nat) (b : Nat) : Bool :=
  cluster.all fun a => !decide (dfn a b < cdist)

/-- `_has_same_source cluster extra_id`: true when some current member of
the cluster has the candidate's owning source. -/
def hasSameSource (srcOf : Nat → Nat) (cluster : List Nat) (b : Nat) : Bool :=
  cluster.any fun a => srcOf a == srcOf b

/-- Minimum of a list of handles (the element `set.pop()` removes under the
ascending-order determinisation). -/
def listMin : List Nat → Option Nat
  | [] => none
  | x :: xs =>
    match listMin xs with
    | none => some x
    | some m => some (Nat.min x m)

/-- The inner `for i in adjacent[c]` loop: a candidate is enqueued into
`to_visit` unless it is already visited, fails the tightness guard
(only when `0 < cluster_dist`), or shares a source with a current cluster
member.  Note the guards inspect the cluster as it is at enqueue time. -/
def enqueueCandidates (dfn : Nat → Nat → ℚ) (srcOf : Nat → Nat) (cdist : ℚ)
    (cluster visited : List Nat) (adjC : List Nat) (toVisit : List Nat) :
    List Nat :=
  adjC.foldl (fun tv i =>
    if visited.contains i then tv
    else if decide (0 < cdist) && !isCloseEnough dfn cdist cluster i then tv
    else if hasSameSource srcOf cluster i then tv
    else if tv.contains i then tv else tv ++ [i]) toVisit

/-- The `while to_visit` loop growing one cluster: pop a handle, add it to
the cluster and the visited set (no guard is re-checked at pop time), then
enqueue its admissible neighbours.  The fuel argument dominates the number
of iterations; each iteration pops one handle. -/
def growCluster (adj : Nat → List Nat) (dfn : Nat → Nat → ℚ)
    (srcOf : Nat → Nat) (cdist : ℚ) :
    Nat → List Nat → List Nat → List Nat → List Nat × List Nat
  | 0, _, cluster, visited => (cluster, visited)
  | fuel + 1, toVisit, cluster, visited =>
    match listMin toVisit with
    | none => (cluster, visited)
    | some c =>
      growCluster adj dfn srcOf cdist fuel
        (enqueueCandidates dfn srcOf cdist (cluster ++ [c]) (visited ++ [c])
          (adj c) (toVisit.erase c))
        (cluster ++ [c]) (visited ++ [c])

/-- The outer `for cluster_idx in adjacent` loop: start a fresh cluster at
every not-yet-visited handle; `visited` persists across clusters. -/
def clusterLoop (adj : Nat → List Nat) (dfn : Nat → Nat → ℚ)
    (srcOf : Nat → Nat) (cdist : ℚ) (fuel : Nat) :
    List Nat → List Nat → List (List Nat)
  | [], _ => []
  | k :: ks, visited =>
    if visited.contains k then clusterLoop adj dfn srcOf cdist fuel ks visited
    else
      let r := growCluster adj dfn srcOf cdist fuel [k] [] visited
      r.1 :: clusterLoop adj dfn srcOf cdist fuel ks r.2

/-- `_ShapeMatcher.match_annotations`: a negative `cluster_dist` falls back
to `pairwise_dist`; `id_segm` is the flattened source lists; the adjacency
graph is built from all pairwise matches; clusters are grown by the guarded
traversal.  Returns the clusters as lists of annotation handles. -/
def matchAnns (mf : List Seg → List Seg → List (Seg × Seg))
    (dfn : Nat → Nat → ℚ) (pairwiseDist clusterDist : ℚ)
    (sources : List (List Seg)) : List (List Nat) :=
  let cdist := if clusterDist < 0 then pairwiseDist else clusterDist
  let segs := sources.flatten
  let ms := (allPairMatches mf sources).map fun p => (p.1.aid, p.2.aid)
  clusterLoop (adjacentOf ms) dfn (srcOfSegs segs) cdist (segs.length + 1)
    (segs.map Seg.aid) []

/-! ### Concrete run for the source-exclusivity guard -/

/-- Three sources: source 0 owns handle 0, source 1 owns handle 1, source 2
owns handles 2 and 3. -/
def c1Sources : List (List Seg) := [[⟨0, 0⟩], [⟨1, 1⟩], [⟨2, 2⟩, ⟨3, 2⟩]]

/-- Pairwise match outcomes: source pair (0,1) matches 0-1, pair (0,2)
matches 0-2, pair (1,2) matches 1-3.  Each annotation is matched to at most
one counterpart per source pair, as the bipartite matcher guarantees. -/
def c1Pairs : List (Nat × Nat) := [(0, 1), (0, 2), (1, 3)]

/-- A `match_annotations_two_sources` stand-in realising exactly the
`c1Pairs` outcomes. -/
def c1MatchFn (s t : List Seg) : List (Seg × Seg) :=
  s.flatMap fun a =>
    t.filterMap fun b =>
      if (a.aid, b.aid) ∈ c1Pairs then some (a, b) else none

/-- All pairwise similarities equal 1 (perfectly overlapping shapes). -/
def c1Dist (_ _ : Nat) : ℚ := 1

/-! ### Concrete run for the tightness guard -/

/-- Three sources, one annotation each. -/
def c2Sources : List (List Seg) := [[⟨0, 0⟩], [⟨1, 1⟩], [⟨2, 2⟩]]

/-- Source pair (0,1) matches 0-1 and pair (0,2) matches 0-2; sources 1 and
2 produce no mutual match. -/
def c2Pairs : List (Nat × Nat) := [(0, 1), (0, 2)]

/-- A `match_annotations_two_sources` stand-in realising the `c2Pairs`
outcomes. -/
def c2MatchFn (s t : List Seg) : List (Seg × Seg) :=
  s.flatMap fun a =>
    t.filterMap fun b =>
      if (a.aid, b.aid) ∈ c2Pairs then some (a, b) else none

/-- Similarities: every annotation to itself 1, the pair (1,2) has
similarity 0, every other pair 1.  Symmetric. -/
def c2Dist (a b : Nat) : ℚ :=
  if a == b then 1 else if a + b == 3 then 0 else 1

/-! ### Skeleton representative - `SkeletonMerger._merge_cluster_shape_nearest` -/

/-- One entry of the `dist` dictionary: for member `x`,
`sum(distance(x, y) for y in cluster) / len(cluster)` (the sum includes
`distance(x, x)` itself, exactly as the source's inner loop does). -/
def skelDistRow (d : Nat → Nat → ℚ) (cluster : List Nat) (x : Nat) : ℚ :=
  (cluster.map fun y => d x y).sum / (cluster.length : ℚ)

/-- `min(dist, key=dist.get)` over the index-keyed dictionary: the first
position holding the minimal value (Python's `min` keeps the earliest of
equal keys, and the dictionary iterates in index order). -/
def minPosVal : List ℚ → Option (Nat × ℚ)
  | [] => none
  | v :: rest =>
    match minPosVal rest with
    | none => some (0, v)
    | some (i, w) => if w < v then some (i + 1, w) else some (0, v)

/-- `SkeletonMerger._merge_cluster_shape_nearest`: the cluster member whose
average distance row is minimal; `none` models the exception Python raises
on an empty cluster. -/
def mergeClusterShapeNearest (d : Nat → Nat → ℚ) (cluster : List Nat) :
    Option Nat :=
  match minPosVal (cluster.map (skelDistRow d cluster)) with
  | none => none
  | some (i, _) => cluster.get? i

/-- Average distance of `x` to all *other* cluster members (the quantity
the spec's "true medoid" sentence is about). -/
def avgOtherDist (d : Nat → Nat → ℚ) (cluster : List Nat) (x : Nat) : ℚ :=
  ((cluster.filter fun y => y != x).map fun y => d x y).sum /
    ((cluster.length - 1 : Nat) : ℚ)

/-- Distance function for the witness run: all pairs at similarity 1. -/
def w4Dist (_ _ : Nat) : ℚ := 1

/-! ### Shaped-cluster label vote - `_ShapeMerger.find_cluster_label` and
`merge_cluster` -/

/-- One annotation as the cluster merger sees it: its (source) label name
and its optional `score` attribute (`attributes.get("score", 1.0)`). -/
structure CAnn where
  label : String
  score : Option ℚ
deriving DecidableEq

/-- One `votes` entry: (label, accumulated score, supporting count). -/
abbrev VoteEntry := String × ℚ × Nat

/-- One step of the tally loop: `state = votes.setdefault(label, [0, 0]);
state[0] += score; state[1] += 1`, preserving dictionary insertion order. -/
def addVote : List VoteEntry → String → ℚ → List VoteEntry
  | [], l, sc => [(l, sc, 1)]
  | (l', s', c') :: rest, l, sc =>
    if l' = l then (l', s' + sc, c' + 1) :: rest
    else (l', s', c') :: addVote rest l sc

/-- The `votes` dictionary built from the cluster, in insertion order. -/
def buildVotes (cluster : List CAnn) : List VoteEntry :=
  cluster.foldl (fun vs a => addVote vs a.label (a.score.getD 1)) []

/-- `max(votes.items(), key=lambda e: e[1][0])`: the first entry with the
maximal accumulated score (Python's `max` keeps the earliest of ties). -/
def maxVote : List VoteEntry → Option VoteEntry
  | [] => none
  | v :: rest =>
    match maxVote rest with
    | none => some v
    | some w => some (if v.2.1 < w.2.1 then w else v)

/-- The non-fatal error recorded through `add_item_error`
(`FailedLabelVotingError` with the vote tally). -/
inductive MergeErr where
  | failedVote (votes : List VoteEntry)
deriving DecidableEq

/-- `_ShapeMerger.find_cluster_label`: pick the winning entry; if its
supporting count is below the quorum, record one FailedVote error and
return no label; either way the score is the accumulated confidence
divided by the dataset count.  (`get_label_id` is modelled as the identity
on label names; on `None` it stays `None`, as in the source.) -/
def find_cluster_label (n quorum : Nat) (cluster : List CAnn) :
    Option String × ℚ × List MergeErr :=
  match maxVote (buildVotes cluster) with
  | none => (none, 0, [])
  | some (l, sc, cnt) =>
    if cnt < quorum then
      (none, sc / (n : ℚ), [MergeErr.failedVote (buildVotes cluster)])
    else (some l, sc / (n : ℚ), [])

/-- The merged annotation produced from a shaped cluster, reduced to the
fields claim C5 is about: the resolved label and the combined score. -/
structure MergedShape where
  label : String
  score : ℚ
deriving DecidableEq

/-- `_ShapeMerger.merge_cluster`: `None` when the label vote was rejected
by quorum, otherwise the representative with the combined score
`label_score * shape_score` (the geometric representative selection is
abstracted into `shapeFn`, whose result claim C5 does not constrain). -/
def merge_cluster (n quorum : Nat) (shapeFn : List CAnn → ℚ)
    (cluster : List CAnn) : Option MergedShape × List MergeErr :=
  match find_cluster_label n quorum cluster with
  | (none, _, errs) => (none, errs)
  | (some l, lscore, errs) => (some ⟨l, lscore * shapeFn cluster⟩, errs)

/-! ### Label-only merger - `LabelMerger.merge_clusters` -/

/-- The exception raised by `for l in a` when `a` is a `dm.Label`
annotation object (not iterable). -/
def labelIterTypeError : String := "TypeError: Label object is not iterable"

/-- Label name used in concrete runs. -/
def carLabel : String := "car"

/-- Label name used in concrete runs. -/
def truckLabel : String := "truck"

/-- One step of the label tally: `votes[label] = 1 + votes.get(label, 0)`,
preserving insertion order. -/
def addLabelVote : List (String × Nat) → String → List (String × Nat)
  | [], l => [(l, 1)]
  | (l', c') :: rest, l =>
    if l' = l then (l', c' + 1) :: rest
    else (l', c') :: addLabelVote rest l

/-- The `votes` dictionary of `LabelMerger.merge_clusters`. -/
def buildLabelVotes (cluster : List String) : List (String × Nat) :=
  cluster.foldl addLabelVote []

/-- The `for label, count in votes.items()` loop.  On a below-quorum label
the source evaluates `[... for l in a]` for the first annotation `a` of the
cluster, which iterates over a `dm.Label` object and raises `TypeError`
(a below-quorum entry implies the cluster is non-empty, so the generator
always reaches an annotation); this is modelled as `Except.error`.
Surviving labels are emitted with score `count / dataset_count`. -/
def labelVotesLoop (n quorum : Nat) :
    List (String × Nat) → Except String (List (String × ℚ))
  | [] => Except.ok []
  | (l, c) :: rest =>
    if c < quorum then Except.error labelIterTypeError
    else
      match labelVotesLoop n quorum rest with
      | Except.error e => Except.error e
      | Except.ok ms => Except.ok ((l, (c : ℚ) / (n : ℚ)) :: ms)

/-- `LabelMerger.merge_clusters` on the single label cluster. -/
def labelMergerMergeClusters (n quorum : Nat) (cluster : List String) :
    Except String (List (String × ℚ)) :=
  labelVotesLoop n quorum (buildLabelVotes cluster)

/-! ### Item assembly - `IntersectMerge.merge_items` -/

/-- The provenance marker set on every surviving annotation
(`annotation.attributes["source"] = "consensus"`). -/
def consensusMarker : String := "consensus"

/-- A merged annotation as `merge_items` sees it: its optional `score`
attribute, its optional `source` attribute, and its remaining content. -/
structure OutAnn where
  score : Option ℚ
  srcTag : Option String
  payload : Nat
deriving DecidableEq

/-- The provenance-tagging loop body. -/
def consensusTag (a : OutAnn) : OutAnn := { a with srcTag := some consensusMarker }

/-- The filtering and tagging part of `IntersectMerge.merge_items`: keep
annotations with `output_conf_thresh <= attributes.get("score", 1)`, then
mark every survivor as consensus output. -/
def mergeItemAnns (thresh : ℚ) (anns : List OutAnn) : List OutAnn :=
  (anns.filter fun a => decide (thresh ≤ a.score.getD 1)).map consensusTag

/-! ### Orchestrator - `IntersectMerge.__call__` item loop -/

/-- The absent source indices for an item: all dataset indices not among
the item's present sources (the source computes this as a set difference;
ascending index order determinises the set iteration). -/
def missingSources (n : Nat) (present : List Nat) : List Nat :=
  (List.range n).filter fun i => decide (i ∉ present)

/-- The `for item_id, items in item_matches.items()` loop over `n`
datasets: every item is merged from its present sources (`f` stands for
`merge_items`, applied to exactly the present sources), and an item held
by fewer than `n` sources additionally records one `NoMatchingItemError`
listing the absent indices.  Returns (merged items, errors), both in
processing order. -/
def intersectMergeItems (n : Nat) (f : List Nat → List Nat) :
    List (Nat × List Nat) → List (Nat × List Nat) × List (Nat × List Nat)
  | [] => ([], [])
  | (iid, present) :: rest =>
    let r := intersectMergeItems n f rest
    ((iid, f present) :: r.1,
     (if present.length < n then [(iid, missingSources n present)] else []) ++ r.2)

/-! ### Per-source consensus scores - `IntersectMerge.__call__` finalize and
`_ShapeMerger.merge_cluster_shape` -/

/-- `np.mean` over a score list; `np.mean([])` is NaN, modelled as
`none`. -/
def npMean (xs : List ℚ) : Option ℚ :=
  if xs = [] then none else some (xs.sum / (xs.length : ℚ))

/-- The finalize loop: each source's accumulated list is replaced by its
mean, only after all items have been processed. -/
def finalizeConsensusScores (acc : List (List ℚ)) : List (Option ℚ) :=
  acc.map npMean

/-- The accumulation of `dataset_mean_consensus_score` during the item
loop: starting from one empty list per dataset, each contribution
(appended by `merge_cluster_shape`) extends its source's list. -/
def accumulateScores (n : Nat) (contribs : List (Nat × ℚ)) : List (List ℚ) :=
  contribs.foldl (fun acc p => acc.set p.1 (acc.getD p.1 [] ++ [p.2]))
    (List.replicate n [])

/-- A whole merge call's per-source score result: accumulate, then
finalize. -/
def mergeCallScores (n : Nat) (contribs : List (Nat × ℚ)) : List (Option ℚ) :=
  finalizeConsensusScores (accumulateScores n contribs)

/-- The values `_ShapeMerger.merge_cluster_shape` appends to the owning
source's list: `max(0, distance(ann, shape))` for each cluster member. -/
def consensusAppends (d : Nat → Nat → ℚ) (shape : Nat) (cluster : List Nat) :
    List ℚ :=
  cluster.map fun a => max 0 (d a shape)

/-! ### Outside-annotation filtering - `_ShapeMatcher._get_ann_type` and
`PointsMatcher.match_annotations_two_sources` -/

/-- The shape type tag of an annotation. -/
inductive ShapeKind where
  | points
  | bbox
  | polyline
  | polygon
  | mask
  | skeleton
deriving DecidableEq

/-- An annotation as the pairwise matcher sees it. -/
structure MAnn where
  aid : Nat
  kind : ShapeKind
  outside : Bool
  label : Nat
deriving DecidableEq

/-- `_ShapeMatcher._get_ann_type`: the annotations of type `t` whose
`outside` attribute is not truthy. -/
def getAnnsOfType (t : ShapeKind) (item : List MAnn) : List MAnn :=
  item.filter fun a => a.kind == t && !a.outside

/-- Modelled from the spec: `match_segments` lives in
`cvat.apps.quality_control.quality_reports`, which is not under `src/`.
Spec section 4.2: only same-label candidate pairs with similarity at or
above the threshold are considered, and a best-effort assignment matches
each annotation to at most one counterpart, preferring the
highest-similarity pairing.  This helper picks the best admissible partner
for one left annotation among the remaining right candidates. -/
def pickBestMatch (d : MAnn → MAnn → ℚ) (thr : ℚ) (a : MAnn)
    (bs : List MAnn) : Option MAnn :=
  match bs.filter (fun b => a.label == b.label && decide (thr ≤ d a b)) with
  | [] => none
  | c :: rest =>
    some (rest.foldl (fun best x => if d a best < d a x then x else best) c)

/-- Modelled from the spec: the greedy bipartite assignment of
`match_segments` over the two supplied candidate lists; returned pairs are
drawn from those lists, each right candidate used at most once. -/
def matchSegmentsModel (d : MAnn → MAnn → ℚ) (thr : ℚ) :
    List MAnn → List MAnn → List (MAnn × MAnn)
  | [], _ => []
  | a :: as, bs =>
    match pickBestMatch d thr a bs with
    | none => matchSegmentsModel d thr as bs
    | some b => (a, b) :: matchSegmentsModel d thr as (bs.erase b)

/-- `PointsMatcher.match_annotations_two_sources`: the candidate objects
passed to `match_segments` are `_get_ann_type(points, ...)` of either side,
so annotations with a truthy `outside` attribute never enter the
matching. -/
def pointsMatchTwoSources (d : MAnn → MAnn → ℚ) (thr : ℚ)
    (itemA itemB : List MAnn) : List (MAnn × MAnn) :=
  matchSegmentsModel d thr (getAnnsOfType ShapeKind.points itemA)
    (getAnnsOfType ShapeKind.points itemB)

/-! ### Theorems -/

/-- `sortKey` is insensitive to the order of the pair. -/
theorem sortKey_comm (a b : Nat) : sortKey (a, b) = sortKey (b, a) := by
  unfold sortKey
  rcases le_total a b with h | h
  · simp only [h, if_true]
    by_cases h' : b ≤ a
    · have : a = b := le_antisymm h h'
      subst this
      simp
    · simp [h']
  · simp only [h, if_true]
    by_cases h' : a ≤ b
    · have : a = b := le_antisymm h' h
      subst this
      simp
    · simp [h']

/-- Claim C3: the cached distance function returns 1 on identical
annotations, and is symmetric within one merge session: calling it on
`(a, b)` and then on `(b, a)` against the cache state left by the first
call yields the same value, because both orders address the same sorted
cache key. -/
theorem cached_distance_symm_refl (simFn : Nat → Nat → ℚ)
    (cache : List ((Nat × Nat) × ℚ)) (a b : Nat) :
    (cachedSimCall simFn a a cache).1 = 1 ∧
    (cachedSimCall simFn b a (cachedSimCall simFn a b cache).2).1 =
      (cachedSimCall simFn a b cache).1 := by
  constructor
  · simp [cachedSimCall]
  · by_cases hab : a = b
    · subst hab
      simp [cachedSimCall]
    · have hba : ¬ b = a := fun h => hab h.symm
      have hkey : sortKey (b, a) = sortKey (a, b) := sortKey_comm b a
      unfold cachedSimCall
      simp only [hab, if_false, hba, hkey]
      cases hl : cache.lookup (sortKey (a, b)) with
      | some v => simp [hl]
      | none => simp [hl, List.lookup]

/-- Claim C1: refuted on the code.  With three sources (the third owning
two annotations) and legitimate pairwise match outcomes 0-1, 0-2, 1-3, the
traversal produces the single cluster {0, 1, 2, 3} although handles 2 and 3
belong to the same source (source 2): the `_has_same_source` guard runs at
enqueue time against the then-current cluster, and a handle already sitting
in `to_visit` is added at pop time without any re-check. -/
theorem cluster_same_source_violation :
    matchAnns c1MatchFn c1Dist 1 (-1) c1Sources = [[0, 1, 2, 3]] ∧
    srcOfSegs c1Sources.flatten 2 = srcOfSegs c1Sources.flatten 3 := by
  decide

/-- Claim C2: refuted on the code.  With a positive configured
`cluster_dist = 1` and pairwise match outcomes 0-1 and 0-2 where
`distance(1, 2) = 0 < cluster_dist`, the traversal still produces the
cluster {0, 1, 2}: both 1 and 2 pass the `_is_close_enough` guard at
enqueue time (each is close enough to the then-only member 0), and no
check runs between them when they are later popped into the cluster. -/
theorem cluster_tightness_violation :
    matchAnns c2MatchFn c2Dist 1 1 c2Sources = [[0, 1, 2]] ∧
    c2Dist 1 2 < 1 ∧ (0 : ℚ) < 1 := by
  decide

/-- A non-empty value list always has a minimum position. -/
theorem minPosVal_ne_none (a : ℚ) (l : List ℚ) : minPosVal (a :: l) ≠ none := by
  unfold minPosVal
  cases minPosVal l with
  | none => simp
  | some p =>
    obtain ⟨i, w⟩ := p
    dsimp only
    split <;> simp

/-- `minPosVal` returns a position holding its value, and the value is a
lower bound of the whole list. -/
theorem minPosVal_spec :
    ∀ (l : List ℚ) (i : Nat) (w : ℚ), minPosVal l = some (i, w) →
      l.get? i = some w ∧ ∀ x ∈ l, w ≤ x := by
  intro l
  induction l with
  | nil => intro i w h; simp [minPosVal] at h
  | cons v rest ih =>
    intro i w h
    cases hr : minPosVal rest with
    | none =>
      have hrest : rest = [] := by
        cases rest with
        | nil => rfl
        | cons a b => exact absurd hr (minPosVal_ne_none a b)
      subst hrest
      simp [minPosVal] at h
      obtain ⟨hi, hw⟩ := h
      subst hi; subst hw
      simp
    | some p =>
      obtain ⟨j, u⟩ := p
      unfold minPosVal at h
      rw [hr] at h
      obtain ⟨hj, hu⟩ := ih j u hr
      by_cases hlt : u < v
      · simp [hlt] at h
        obtain ⟨hi, hw⟩ := h
        subst hi; subst hw
        constructor
        · simpa using hj
        · intro x hx
          rcases List.mem_cons.mp hx with h1 | h1
          · subst h1; exact le_of_lt hlt
          · exact hu x h1
      · simp [hlt] at h
        obtain ⟨hi, hw⟩ := h
        subst hi; subst hw
        constructor
        · simp
        · intro x hx
          rcases List.mem_cons.mp hx with h1 | h1
          · subst h1; exact le_refl _
          · exact le_trans (not_lt.mp hlt) (hu x h1)

/-- For a member of a duplicate-free cluster, the full distance row splits
into the self-distance plus the distances to the other members. -/
theorem row_decomp (d : Nat → Nat → ℚ) (cluster : List Nat) (x : Nat)
    (hx : x ∈ cluster) (hnd : cluster.Nodup) :
    (cluster.map fun y => d x y).sum =
      d x x + ((cluster.filter fun y => y != x).map fun y => d x y).sum := by
  have hperm : cluster.Perm (x :: cluster.erase x) := List.perm_cons_erase hx
  have hsum : (cluster.map fun y => d x y).sum =
      ((x :: cluster.erase x).map fun y => d x y).sum :=
    (hperm.map _).sum_eq
  rw [hsum]
  simp only [List.map_cons, List.sum_cons]
  congr 1
  rw [hnd.erase_eq_filter]

/-- Claim C4: for a non-empty skeleton cluster (whose members are distinct
annotations) and a distance function with `distance(a, a) = 1` (as the
cached skeleton distance guarantees), the representative chosen by
`SkeletonMerger._merge_cluster_shape_nearest` minimises the average
pairwise distance to all other members: it is a true medoid of the
section-4.1 skeleton distance. -/
theorem skeleton_true_medoid (d : Nat → Nat → ℚ) (cluster : List Nat)
    (hrefl : ∀ a, d a a = 1) (hnd : cluster.Nodup) (hne : cluster ≠ []) :
    ∃ c, mergeClusterShapeNearest d cluster = some c ∧ c ∈ cluster ∧
      ∀ m ∈ cluster, avgOtherDist d cluster c ≤ avgOtherDist d cluster m := by
  have hlen : 0 < cluster.length := List.length_pos.mpr hne
  obtain ⟨p, hp⟩ : ∃ p, minPosVal (cluster.map (skelDistRow d cluster)) = some p := by
    cases hv : cluster.map (skelDistRow d cluster) with
    | nil =>
      exfalso
      rw [List.map_eq_nil_iff] at hv
      exact hne hv
    | cons a b =>
      cases hm : minPosVal (a :: b) with
      | none => exact absurd hm (minPosVal_ne_none a b)
      | some q => exact ⟨q, rfl⟩
  obtain ⟨i, w⟩ := p
  obtain ⟨hget, hmin⟩ := minPosVal_spec _ i w hp
  rw [List.get?_map] at hget
  cases hc : cluster.get? i with
  | none => rw [hc] at hget; simp at hget
  | some c =>
    rw [hc] at hget
    simp at hget
    have hcmem : c ∈ cluster := List.get?_mem hc
    refine ⟨c, ?_, hcmem, ?_⟩
    · unfold mergeClusterShapeNearest
      rw [hp]
      exact hc
    · intro m hm
      have hrowm : skelDistRow d cluster m ∈ cluster.map (skelDistRow d cluster) :=
        List.mem_map_of_mem _ hm
      have hle : skelDistRow d cluster c ≤ skelDistRow d cluster m := by
        rw [hget]; exact hmin _ hrowm
      have hsum : ((cluster.filter fun y => y != c).map fun y => d c y).sum ≤
          ((cluster.filter fun y => y != m).map fun y => d m y).sum := by
        have h1 := row_decomp d cluster c hcmem hnd
        have h2 := row_decomp d cluster m hm hnd
        unfold skelDistRow at hle
        rw [h1, h2, hrefl, hrefl] at hle
        have hpos : (0 : ℚ) < (cluster.length : ℚ) := by exact_mod_cast hlen
        have := (div_le_div_iff_of_pos_right hpos).mp hle
        linarith
      unfold avgOtherDist
      rcases Nat.lt_or_ge 1 cluster.length with hbig | hsmall
      · have hpos : (0 : ℚ) < ((cluster.length - 1 : Nat) : ℚ) := by
          have : 0 < cluster.length - 1 := by omega
          exact_mod_cast this
        exact (div_le_div_iff_of_pos_right hpos).mpr hsum
      · have h1 : cluster.length = 1 := by omega
        have hz : ((cluster.length - 1 : Nat) : ℚ) = 0 := by
          rw [h1]; norm_num
        rw [hz, div_zero, div_zero]

/-- Witness for claim C4 at the concrete cluster {0, 1} with all
similarities 1. -/
theorem skeleton_true_medoid_witness :
    ∃ c, mergeClusterShapeNearest w4Dist [0, 1] = some c ∧ c ∈ [0, 1] ∧
      ∀ m ∈ [0, 1], avgOtherDist w4Dist [0, 1] c ≤ avgOtherDist w4Dist [0, 1] m :=
  skeleton_true_medoid w4Dist [0, 1] (fun _ => rfl) (by decide) (by decide)

/-- One tally step never empties the vote dictionary. -/
theorem addVote_ne_nil (vs : List VoteEntry) (l : String) (sc : ℚ) :
    addVote vs l sc ≠ [] := by
  cases vs with
  | nil => simp [addVote]
  | cons v rest =>
    obtain ⟨l', s', c'⟩ := v
    unfold addVote
    split <;> simp

/-- Folding tally steps over any cluster keeps the dictionary non-empty. -/
theorem foldl_addVote_ne_nil :
    ∀ (cluster : List CAnn) (vs : List VoteEntry), vs ≠ [] →
      cluster.foldl (fun vs a => addVote vs a.label (a.score.getD 1)) vs ≠ [] := by
  intro cluster
  induction cluster with
  | nil => intro vs h; simpa using h
  | cons a rest ih =>
    intro vs _
    simp only [List.foldl_cons]
    exact ih _ (addVote_ne_nil vs a.label (a.score.getD 1))

/-- A non-empty cluster yields a non-empty vote dictionary. -/
theorem buildVotes_ne_nil (cluster : List CAnn) (h : cluster ≠ []) :
    buildVotes cluster ≠ [] := by
  cases cluster with
  | nil => exact absurd rfl h
  | cons a rest =>
    unfold buildVotes
    simp only [List.foldl_cons]
    exact foldl_addVote_ne_nil rest _ (addVote_ne_nil [] a.label (a.score.getD 1))

/-- `maxVote` returns the first entry of maximal accumulated score: every
earlier entry is strictly smaller, every later entry no larger. -/
theorem maxVote_spec :
    ∀ l : List VoteEntry, l ≠ [] →
      ∃ w l1 l2, maxVote l = some w ∧ l = l1 ++ w :: l2 ∧
        (∀ v ∈ l1, v.2.1 < w.2.1) ∧ (∀ v ∈ l2, v.2.1 ≤ w.2.1) := by
  intro l
  induction l with
  | nil => intro h; exact absurd rfl h
  | cons v rest ih =>
    intro _
    cases hrest : rest with
    | nil =>
      refine ⟨v, [], [], ?_, by simp, by simp, by simp⟩
      simp [maxVote]
    | cons b bs =>
      rw [← hrest]
      obtain ⟨w, l1, l2, hmax, hdec, h1, h2⟩ := ih (by simp [hrest])
      by_cases hlt : v.2.1 < w.2.1
      · refine ⟨w, v :: l1, l2, ?_, ?_, ?_, h2⟩
        · unfold maxVote
          rw [hmax]
          simp [hlt]
        · simp [hdec]
        · intro x hx
          rcases List.mem_cons.mp hx with h | h
          · subst h; exact hlt
          · exact h1 x h
      · refine ⟨v, [], rest, ?_, by simp, by simp, ?_⟩
        · unfold maxVote
          rw [hmax]
          simp [hlt]
        · intro x hx
          have hw : w.2.1 ≤ v.2.1 := not_lt.mp hlt
          rw [hdec] at hx
          rcases List.mem_append.mp hx with h | h
          · exact le_trans (le_of_lt (h1 x h)) hw
          · rcases List.mem_cons.mp h with h' | h'
            · subst h'; exact hw
            · exact le_trans (h2 x h') hw

/-- Claim C5: for every non-empty shaped cluster, exactly one winning vote
entry is selected - the one with the highest accumulated per-annotation
confidence, ties broken by first appearance in the tally.  If its
supporting count is below the quorum, `merge_cluster` yields no output and
exactly one FailedVote error carrying the tally; otherwise the label score
is the accumulated confidence divided by the dataset count and the merged
annotation's combined score multiplies it by the shape score. -/
theorem shape_merger_label_vote (n quorum : Nat) (shapeFn : List CAnn → ℚ)
    (cluster : List CAnn) (hne : cluster ≠ []) :
    ∃ w : VoteEntry, ∃ l1 l2 : List VoteEntry,
      maxVote (buildVotes cluster) = some w ∧
      buildVotes cluster = l1 ++ w :: l2 ∧
      (∀ v ∈ l1, v.2.1 < w.2.1) ∧
      (∀ v ∈ l2, v.2.1 ≤ w.2.1) ∧
      (w.2.2 < quorum →
        merge_cluster n quorum shapeFn cluster =
          (none, [MergeErr.failedVote (buildVotes cluster)])) ∧
      (quorum ≤ w.2.2 →
        find_cluster_label n quorum cluster = (some w.1, w.2.1 / (n : ℚ), []) ∧
        merge_cluster n quorum shapeFn cluster =
          (some ⟨w.1, (w.2.1 / (n : ℚ)) * shapeFn cluster⟩, [])) := by
  obtain ⟨w, l1, l2, hmax, hdec, h1, h2⟩ :=
    maxVote_spec (buildVotes cluster) (buildVotes_ne_nil cluster hne)
  obtain ⟨wl, wsc, wcnt⟩ := w
  refine ⟨(wl, wsc, wcnt), l1, l2, hmax, hdec, h1, h2, ?_, ?_⟩
  · intro hq
    unfold merge_cluster find_cluster_label
    rw [hmax]
    simp only at hq
    simp [hq]
  · intro hq
    have hnq : ¬ wcnt < quorum := not_lt.mpr hq
    unfold merge_cluster find_cluster_label
    rw [hmax]
    simp [hnq]

/-- Witness for claim C5 at a concrete one-member cluster with quorum 2:
the single `carLabel` vote loses the quorum check, so the cluster merge
fails with one FailedVote error. -/
theorem shape_merger_label_vote_witness :
    ∃ w : VoteEntry, ∃ l1 l2 : List VoteEntry,
      maxVote (buildVotes [⟨carLabel, none⟩]) = some w ∧
      buildVotes [⟨carLabel, none⟩] = l1 ++ w :: l2 ∧
      (∀ v ∈ l1, v.2.1 < w.2.1) ∧
      (∀ v ∈ l2, v.2.1 ≤ w.2.1) ∧
      (w.2.2 < 2 →
        merge_cluster 2 2 (fun _ => 1) [⟨carLabel, none⟩] =
          (none, [MergeErr.failedVote (buildVotes [⟨carLabel, none⟩])])) ∧
      (2 ≤ w.2.2 →
        find_cluster_label 2 2 [⟨carLabel, none⟩] =
          (some w.1, w.2.1 / ((2 : Nat) : ℚ), []) ∧
        merge_cluster 2 2 (fun _ => 1) [⟨carLabel, none⟩] =
          (some ⟨w.1, (w.2.1 / ((2 : Nat) : ℚ)) * (fun (_ : List CAnn) => (1 : ℚ)) [⟨carLabel, none⟩]⟩, [])) :=
  shape_merger_label_vote 2 2 (fun _ => 1) [⟨carLabel, none⟩] (by simp)

/-- Claim C6: refuted on the code.  In a label-only cluster where sources
vote `carLabel` and `truckLabel` under quorum 2, both counts are below
quorum; instead of recording a FailedVote error naming the non-voting
sources, `LabelMerger.merge_clusters` evaluates
`[... for l in a]` over a Label annotation object and raises TypeError,
aborting the merge call. -/
theorem label_merger_below_quorum_crash :
    labelMergerMergeClusters 2 2 [carLabel, truckLabel] =
      Except.error labelIterTypeError := by
  rfl

/-- Claim C7: the returned item keeps exactly the merged annotations whose
combined score (default 1 when absent) is at or above the configured
output confidence floor, every survivor is tagged with the consensus
provenance marker, and an annotation strictly below the floor never
reaches the output. -/
theorem merge_items_conf_floor (thresh : ℚ) (anns : List OutAnn) :
    (∀ b, b ∈ mergeItemAnns thresh anns ↔
      ∃ a, a ∈ anns ∧ thresh ≤ a.score.getD 1 ∧ b = consensusTag a) ∧
    (∀ b ∈ mergeItemAnns thresh anns, b.srcTag = some consensusMarker) ∧
    (∀ a ∈ anns, a.score.getD 1 < thresh →
      consensusTag a ∉ mergeItemAnns thresh anns) := by
  have hmem : ∀ b, b ∈ mergeItemAnns thresh anns ↔
      ∃ a, a ∈ anns ∧ thresh ≤ a.score.getD 1 ∧ b = consensusTag a := by
    intro b
    unfold mergeItemAnns
    simp only [List.mem_map, List.mem_filter, decide_eq_true_eq]
    constructor
    · rintro ⟨a, ⟨ha, hsc⟩, rfl⟩
      exact ⟨a, ha, hsc, rfl⟩
    · rintro ⟨a, ha, hsc, rfl⟩
      exact ⟨a, ⟨ha, hsc⟩, rfl⟩
  refine ⟨hmem, ?_, ?_⟩
  · intro b hb
    obtain ⟨a, _, _, rfl⟩ := (hmem b).mp hb
    rfl
  · intro a _ hlt hin
    obtain ⟨a', _, hsc', heq⟩ := (hmem (consensusTag a)).mp hin
    have hscore : (consensusTag a).score = (consensusTag a').score :=
      congrArg OutAnn.score heq
    simp only [consensusTag] at hscore
    rw [show a.score.getD 1 = a'.score.getD 1 from
      congrArg (fun o => Option.getD o 1) hscore] at hlt
    exact absurd hsc' (not_le.mpr hlt)

/-- Every recorded missing-sources error belongs to one of the processed
items. -/
theorem intersectMergeItems_err_ids (n : Nat) (f : List Nat → List Nat) :
    ∀ (items : List (Nat × List Nat)) (e : Nat × List Nat),
      e ∈ (intersectMergeItems n f items).2 → e.1 ∈ items.map Prod.fst := by
  intro items
  induction items with
  | nil => intro e h; simp [intersectMergeItems] at h
  | cons it rest ih =>
    intro e h
    obtain ⟨iid, present⟩ := it
    unfold intersectMergeItems at h
    simp only [List.mem_append] at h
    rcases h with h | h
    · by_cases hlen : present.length < n
      · simp [hlen] at h
        subst h
        simp
      · simp [hlen] at h
    · simp only [List.map_cons, List.mem_cons]
      exact Or.inr (ih e h)

/-- Every processed item contributes a merged result built from exactly its
present sources. -/
theorem intersectMergeItems_mem_merged (n : Nat) (f : List Nat → List Nat) :
    ∀ (items : List (Nat × List Nat)) (iid : Nat) (present : List Nat),
      (iid, present) ∈ items →
      (iid, f present) ∈ (intersectMergeItems n f items).1 := by
  intro items
  induction items with
  | nil => intro iid present h; simp at h
  | cons it rest ih =>
    intro iid present h
    obtain ⟨jid, q⟩ := it
    unfold intersectMergeItems
    rcases List.mem_cons.mp h with h' | h'
    · rw [Prod.mk.injEq] at h'
      obtain ⟨h1, h2⟩ := h'
      subst h1; subst h2
      exact List.mem_cons_self _ _
    · exact List.mem_cons_of_mem _ (ih iid present h')

/-- A deficient item (with a unique item id) accounts for exactly one
recorded error, carrying its absent source indices. -/
theorem intersectMergeItems_err_filter (n : Nat) (f : List Nat → List Nat) :
    ∀ (items : List (Nat × List Nat)) (iid : Nat) (present : List Nat),
      (iid, present) ∈ items → (items.map Prod.fst).Nodup →
      present.length < n →
      ((intersectMergeItems n f items).2.filter fun e => e.1 == iid) =
        [(iid, missingSources n present)] := by
  intro items
  induction items with
  | nil => intro iid present h; simp at h
  | cons it rest ih =>
    intro iid present hmem hids hk
    obtain ⟨jid, q⟩ := it
    simp only [List.map_cons, List.nodup_cons] at hids
    obtain ⟨hjid, hrestnd⟩ := hids
    unfold intersectMergeItems
    rw [List.filter_append]
    rcases List.mem_cons.mp hmem with h' | h'
    · rw [Prod.mk.injEq] at h'
      obtain ⟨h1, h2⟩ := h'
      subst h1; subst h2
      have hrest : ((intersectMergeItems n f rest).2.filter
          fun e => e.1 == iid) = [] := by
        rw [List.filter_eq_nil_iff]
        intro e he
        have := intersectMergeItems_err_ids n f rest e he
        simp only [beq_iff_eq]
        intro heq
        rw [heq] at this
        exact hjid this
      rw [hrest, if_pos hk]
      simp
    · have hne : jid ≠ iid := by
        intro heq
        subst heq
        exact hjid (List.mem_map_of_mem Prod.fst h')
      have hhead : ((if q.length < n then [(jid, missingSources n q)] else []).filter
          fun e => e.1 == iid) = [] := by
        by_cases hq : q.length < n
        · simp [hq, hne]
        · simp [hq]
      rw [hhead]
      simp only [List.nil_append]
      exact ih iid present h' hrestnd hk

/-- The absent-index list has exactly the `n - k` indices not present. -/
theorem missingSources_spec (n : Nat) (present : List Nat)
    (hnd : present.Nodup) (hsub : ∀ s ∈ present, s < n) :
    (missingSources n present).length = n - present.length ∧
    (∀ s, s ∈ missingSources n present ↔ s < n ∧ s ∉ present) := by
  constructor
  · have hperm : List.Perm ((List.range n).filter (fun i => decide (i ∈ present)))
        present := by
      apply (List.perm_ext_iff_of_nodup ((List.nodup_range n).filter _) hnd).mpr
      intro a
      simp [List.mem_filter, List.mem_range]
      exact fun ha => hsub a ha
    have hsplit := List.filter_append_perm (fun i => decide (i ∈ present)) (List.range n)
    have hlen := hsplit.length_eq
    rw [List.length_append, List.length_range] at hlen
    have hplen : ((List.range n).filter (fun i => decide (i ∈ present))).length =
        present.length := hperm.length_eq
    have hnoteq : (List.range n).filter (fun x => !decide (x ∈ present)) =
        missingSources n present := by
      unfold missingSources
      apply List.filter_congr
      intro x _
      simp
    rw [hplen, hnoteq] at hlen
    omega
  · intro s
    unfold missingSources
    simp [List.mem_filter, List.mem_range]

/-- Claim C8: when an item is present in only `k < n` sources (source
indices valid and distinct, item ids unique), the merge still produces a
merged result for that item from exactly its available sources, and the
error list holds exactly one entry for the item, listing exactly the
`n - k` absent source indices. -/
theorem missing_sources_reported (n : Nat) (f : List Nat → List Nat)
    (items : List (Nat × List Nat)) (iid : Nat) (present : List Nat)
    (hmem : (iid, present) ∈ items) (hids : (items.map Prod.fst).Nodup)
    (hnd : present.Nodup) (hsub : ∀ s ∈ present, s < n)
    (hk : present.length < n) :
    (iid, f present) ∈ (intersectMergeItems n f items).1 ∧
    ((intersectMergeItems n f items).2.filter fun e => e.1 == iid) =
      [(iid, missingSources n present)] ∧
    (missingSources n present).length = n - present.length ∧
    (∀ s, s ∈ missingSources n present ↔ s < n ∧ s ∉ present) := by
  obtain ⟨hlen, hmemspec⟩ := missingSources_spec n present hnd hsub
  exact ⟨intersectMergeItems_mem_merged n f items iid present hmem,
    intersectMergeItems_err_filter n f items iid present hmem hids hk,
    hlen, hmemspec⟩

/-- Witness for claim C8: three sources, one item held by sources 0 and 2
only; the single recorded error lists exactly source 1. -/
theorem missing_sources_reported_witness :
    (7, (fun (l : List Nat) => l) [0, 2]) ∈
      (intersectMergeItems 3 (fun l => l) [(7, [0, 2])]).1 ∧
    ((intersectMergeItems 3 (fun l => l) [(7, [0, 2])]).2.filter
      fun e => e.1 == 7) = [(7, missingSources 3 [0, 2])] ∧
    (missingSources 3 [0, 2]).length = 3 - ([0, 2] : List Nat).length ∧
    (∀ s, s ∈ missingSources 3 [0, 2] ↔ s < 3 ∧ s ∉ ([0, 2] : List Nat)) :=
  missing_sources_reported 3 (fun l => l) [(7, [0, 2])] 7 [0, 2]
    (by decide) (by decide) (by decide) (by decide) (by decide)

/-- Claim C9 counterexample: after a merge call over one source that never
accumulates a consensus score (for example, a source with no annotations),
the per-source result is `np.mean([])`, i.e. NaN (modelled `none`), not a
float in [0, 1] as claimed. -/
theorem consensus_score_nan_counterexample :
    ¬ ∀ v ∈ mergeCallScores 1 [], ∃ q : ℚ, v = some q ∧ 0 ≤ q ∧ q ≤ 1 := by
  intro h
  have hv : mergeCallScores 1 [] = [none] := rfl
  obtain ⟨q, hq, _, _⟩ := h none (by rw [hv]; exact List.mem_singleton.mpr rfl)
  exact Option.noConfusion hq

/-- Claim C9 as amended: each source whose accumulated consensus-score
list is non-empty (with entries in [0, 1], which
`merge_cluster_shape` guarantees whenever the distance function is bounded
by 1 - second conjunct) receives the arithmetic mean of its list, a value
in [0, 1]; the mean is taken only in the finalize step, after all items
have contributed.  A source whose list stayed empty receives NaN instead
(see the counterexample). -/
theorem consensus_scores_are_means (acc : List (List ℚ))
    (h : ∀ l ∈ acc, l ≠ [] ∧ ∀ x ∈ l, 0 ≤ x ∧ x ≤ 1) :
    (∀ v ∈ finalizeConsensusScores acc, ∃ l, l ∈ acc ∧
      v = some (l.sum / (l.length : ℚ)) ∧
      0 ≤ l.sum / (l.length : ℚ) ∧ l.sum / (l.length : ℚ) ≤ 1) ∧
    ∀ (d : Nat → Nat → ℚ) (shape : Nat) (cluster : List Nat),
      (∀ a ∈ cluster, d a shape ≤ 1) →
      ∀ x ∈ consensusAppends d shape cluster, 0 ≤ x ∧ x ≤ 1 := by
  constructor
  · intro v hv
    obtain ⟨l, hl, rfl⟩ := List.mem_map.mp hv
    obtain ⟨hne, hbnd⟩ := h l hl
    have hlpos : 0 < l.length := List.length_pos.mpr hne
    have hlq : (0 : ℚ) < (l.length : ℚ) := by exact_mod_cast hlpos
    have hsum0 : 0 ≤ l.sum := List.sum_nonneg fun x hx => (hbnd x hx).1
    have hsum1 : l.sum ≤ (l.length : ℚ) := by
      have := List.sum_le_card_nsmul l 1 fun x hx => (hbnd x hx).2
      simpa [nsmul_eq_mul] using this
    refine ⟨l, hl, ?_, ?_, ?_⟩
    · unfold npMean
      rw [if_neg hne]
    · exact div_nonneg hsum0 (le_of_lt hlq)
    · rw [div_le_one hlq]
      exact hsum1
  · intro d shape cluster hd x hx
    obtain ⟨a, ha, rfl⟩ := List.mem_map.mp hx
    constructor
    · exact le_max_left 0 _
    · exact max_le (by norm_num) (hd a ha)

/-- Witness for the amended claim C9 at the accumulated state `[[1]]`. -/
theorem consensus_scores_are_means_witness :
    (∀ v ∈ finalizeConsensusScores [[1]], ∃ l, l ∈ ([[1]] : List (List ℚ)) ∧
      v = some (l.sum / (l.length : ℚ)) ∧
      0 ≤ l.sum / (l.length : ℚ) ∧ l.sum / (l.length : ℚ) ≤ 1) ∧
    ∀ (d : Nat → Nat → ℚ) (shape : Nat) (cluster : List Nat),
      (∀ a ∈ cluster, d a shape ≤ 1) →
      ∀ x ∈ consensusAppends d shape cluster, 0 ≤ x ∧ x ≤ 1 :=
  consensus_scores_are_means [[1]] (by
    intro l hl
    simp only [List.mem_singleton] at hl
    subst hl
    refine ⟨by simp, ?_⟩
    intro x hx
    simp only [List.mem_singleton] at hx
    subst hx
    norm_num)

/-- The running best candidate of the greedy assignment stays among the
candidates. -/
theorem foldlBest_mem (d : MAnn → MAnn → ℚ) (a : MAnn) :
    ∀ (rest : List MAnn) (c : MAnn),
      rest.foldl (fun best x => if d a best < d a x then x else best) c ∈
        c :: rest := by
  intro rest
  induction rest with
  | nil => intro c; simp
  | cons x xs ih =>
    intro c
    simp only [List.foldl_cons]
    have := ih (if d a c < d a x then x else c)
    rcases List.mem_cons.mp this with h | h
    · by_cases hc : d a c < d a x
      · rw [h]
        simp [hc]
      · rw [h]
        simp [hc]
    · exact List.mem_cons_of_mem _ (List.mem_cons_of_mem _ h)

/-- A partner picked by the greedy step is one of the right candidates. -/
theorem pickBestMatch_mem (d : MAnn → MAnn → ℚ) (thr : ℚ) (a : MAnn)
    (bs : List MAnn) (b : MAnn) (h : pickBestMatch d thr a bs = some b) :
    b ∈ bs := by
  unfold pickBestMatch at h
  cases hf : bs.filter (fun b => a.label == b.label && decide (thr ≤ d a b)) with
  | nil => rw [hf] at h; simp at h
  | cons c rest =>
    rw [hf] at h
    simp only [Option.some.injEq] at h
    have hmem := foldlBest_mem d a rest c
    rw [h] at hmem
    have : b ∈ bs.filter (fun b => a.label == b.label && decide (thr ≤ d a b)) := by
      rw [hf]; exact hmem
    exact List.mem_of_mem_filter this

/-- Every pair returned by the modelled assignment is drawn from the two
candidate lists. -/
theorem matchSegmentsModel_mem (d : MAnn → MAnn → ℚ) (thr : ℚ) :
    ∀ (as bs : List MAnn) (p : MAnn × MAnn),
      p ∈ matchSegmentsModel d thr as bs → p.1 ∈ as ∧ p.2 ∈ bs := by
  intro as
  induction as with
  | nil => intro bs p h; simp [matchSegmentsModel] at h
  | cons a rest ih =>
    intro bs p h
    unfold matchSegmentsModel at h
    cases hp : pickBestMatch d thr a bs with
    | none =>
      rw [hp] at h
      obtain ⟨h1, h2⟩ := ih bs p h
      exact ⟨List.mem_cons_of_mem _ h1, h2⟩
    | some b =>
      rw [hp] at h
      rcases List.mem_cons.mp h with h' | h'
      · subst h'
        exact ⟨List.mem_cons_self _ _, pickBestMatch_mem d thr a bs b hp⟩
      · obtain ⟨h1, h2⟩ := ih (bs.erase b) p h'
        exact ⟨List.mem_cons_of_mem _ h1, List.erase_subset _ _ h2⟩

/-- Claim C10: every pair produced by the points matcher consists of two
annotations of points type whose `outside` attribute is false, drawn from
the two input lists - annotations marked `outside` are excluded from the
pairwise matching input by `_get_ann_type` and thus never matched. -/
theorem outside_excluded_from_matching (d : MAnn → MAnn → ℚ) (thr : ℚ)
    (itemA itemB : List MAnn) :
    ∀ p ∈ pointsMatchTwoSources d thr itemA itemB,
      p.1.outside = false ∧ p.2.outside = false ∧
      p.1 ∈ itemA ∧ p.2 ∈ itemB ∧
      p.1.kind = ShapeKind.points ∧ p.2.kind = ShapeKind.points := by
  intro p hp
  obtain ⟨h1, h2⟩ := matchSegmentsModel_mem d thr _ _ p hp
  unfold getAnnsOfType at h1 h2
  have g1 := List.mem_filter.mp h1
  have g2 := List.mem_filter.mp h2
  obtain ⟨ha1, hb1⟩ := g1
  obtain ⟨ha2, hb2⟩ := g2
  simp only [Bool.and_eq_true, beq_iff_eq, Bool.not_eq_true'] at hb1 hb2
  exact ⟨hb1.2, hb2.2, ha1, ha2, hb1.1, hb2.1⟩

/-- Witness for claim C10: two single-point sources whose annotations
match; the matched pair consists of non-outside points annotations. -/
theorem outside_excluded_from_matching_witness :
    ((⟨0, ShapeKind.points, false, 5⟩, ⟨1, ShapeKind.points, false, 5⟩) :
        MAnn × MAnn).1.outside = false ∧
    ((⟨0, ShapeKind.points, false, 5⟩, ⟨1, ShapeKind.points, false, 5⟩) :
        MAnn × MAnn).2.outside = false ∧
    ((⟨0, ShapeKind.points, false, 5⟩, ⟨1, ShapeKind.points, false, 5⟩) :
        MAnn × MAnn).1 ∈ [(⟨0, ShapeKind.points, false, 5⟩ : MAnn)] ∧
    ((⟨0, ShapeKind.points, false, 5⟩, ⟨1, ShapeKind.points, false, 5⟩) :
        MAnn × MAnn).2 ∈ [(⟨1, ShapeKind.points, false, 5⟩ : MAnn)] ∧
    ((⟨0, ShapeKind.points, false, 5⟩, ⟨1, ShapeKind.points, false, 5⟩) :
        MAnn × MAnn).1.kind = ShapeKind.points ∧
    ((⟨0, ShapeKind.points, false, 5⟩, ⟨1, ShapeKind.points, false, 5⟩) :
        MAnn × MAnn).2.kind = ShapeKind.points :=
  outside_excluded_from_matching (fun _ _ => 1) 0
    [⟨0, ShapeKind.points, false, 5⟩] [⟨1, ShapeKind.points, false, 5⟩]
    (⟨0, ShapeKind.points, false, 5⟩, ⟨1, ShapeKind.points, false, 5⟩)
    (by decide)
